import Mathlib

/-!
Verification development for the skingo component/template engine
(package `skingo`, file `skingo.go`).

Strings are modelled as `List Char` (`Str`).  Each definition below is a
direct shallow embedding of the corresponding Go function; Go regular
expressions are embedded as the deterministic scanners they denote on the
patterns actually used by the code (all the patterns involved are
backtracking-free, as argued in comments at each scanner).
-/

set_option maxRecDepth 8192

namespace Skingo

/-- Strings are lists of characters. -/
abbrev Str := List Char

/-- Convert a Lean string literal to the model representation. -/
def str (s : String) : Str := s.toList

/-- The opening-brace character (written numerically). -/
def obrace : Char := Char.ofNat 123

/-- The closing-brace character (written numerically). -/
def cbrace : Char := Char.ofNat 125

/-- The double-quote character. -/
def dquote : Char := Char.ofNat 34

/-- The single-quote character. -/
def squote : Char := Char.ofNat 39

/-- Whitespace as matched by the Go regexp class `\s` (`[\t\n\f\r ]`). -/
def regexSpace (c : Char) : Bool :=
  c = ' ' ∨ c = '\t' ∨ c = '\n' ∨ c = Char.ofNat 12 ∨ c = Char.ofNat 13

/-- Whitespace as recognised by Go's `strings.TrimSpace` / `strings.Fields`
(`unicode.IsSpace`), restricted to the ASCII range that the component
sources use. -/
def goSpace (c : Char) : Bool :=
  c = ' ' ∨ c = '\t' ∨ c = '\n' ∨ c = Char.ofNat 11 ∨ c = Char.ofNat 12 ∨ c = Char.ofNat 13

/-- Go `strings.TrimSpace`: drop leading and trailing whitespace. -/
def trimSpace (s : Str) : Str :=
  ((s.dropWhile goSpace).reverse.dropWhile goSpace).reverse

/-- Go `strings.Split(s, sep)` for a one-character separator. -/
def splitOnChar (sep : Char) : Str → List Str
  | [] => [[]]
  | c :: rest =>
    if c = sep then [] :: splitOnChar sep rest
    else
      match splitOnChar sep rest with
      | [] => [[c]]
      | h :: t => (c :: h) :: t

/-- Go `strings.SplitN(s, sep, 2)` for a one-character separator: `none`
when the separator does not occur (the Go call then returns a single
part), otherwise the text before the first separator and the rest. -/
def splitN2 (sep : Char) : Str → Option (Str × Str)
  | [] => none
  | c :: rest =>
    if c = sep then some ([], rest)
    else (splitN2 sep rest).map (fun p => (c :: p.1, p.2))

/-- Go `strings.Join(parts, sep)`. -/
def joinSep (sep : Str) : List Str → Str
  | [] => []
  | [x] => x
  | x :: xs => x ++ sep ++ joinSep sep xs

/-- Go `strings.Index(s, needle)`: index of the first occurrence, `none`
when absent (Go returns `-1`). -/
def strIndex (needle : Str) : Str → Option Nat
  | [] => if needle = [] then some 0 else none
  | c :: t =>
    if needle.isPrefixOf (c :: t) then some 0
    else (strIndex needle t).map (· + 1)

/-- Go `strings.Contains(s, needle)`. -/
def containsSub (needle s : Str) : Bool := (strIndex needle s).isSome

/-- Go `strings.Replace(s, pat, rep, 1)`: replace the first occurrence. -/
def replaceFirst (pat rep : Str) : Str → Str
  | [] => if pat = [] then rep else []
  | c :: rest =>
    if pat.isPrefixOf (c :: rest) then rep ++ (c :: rest).drop pat.length
    else c :: replaceFirst pat rep rest

/-- Scanner for `replaceAll`, structurally recursive on a fuel argument
so that it evaluates by kernel reduction; each step consumes at least one
character, so fuel `s.length` is always enough. -/
def replaceAllAux (pat rep : Str) : Nat → Str → Str
  | _, [] => []
  | 0, s => s
  | fuel + 1, c :: rest =>
    if pat ≠ [] ∧ pat.isPrefixOf (c :: rest) then
      rep ++ replaceAllAux pat rep fuel ((c :: rest).drop pat.length)
    else
      c :: replaceAllAux pat rep fuel rest

/-- Go `strings.ReplaceAll(s, pat, rep)` for a non-empty pattern:
replace every non-overlapping occurrence, scanning left to right. -/
def replaceAll (pat rep s : Str) : Str := replaceAllAux pat rep s.length s

/-- Scanner for `goFields`, structurally recursive on a fuel argument so
that it evaluates by kernel reduction. -/
def goFieldsAux : Nat → Str → List Str
  | _, [] => []
  | 0, _ => []
  | fuel + 1, c :: rest =>
    if goSpace c then goFieldsAux fuel rest
    else
      (c :: rest.takeWhile (fun d => ¬ goSpace d)) ::
        goFieldsAux fuel (rest.dropWhile (fun d => ¬ goSpace d))

/-- Go `strings.Fields`: whitespace-separated fields. -/
def goFields (s : Str) : List Str := goFieldsAux s.length s

/-! ### Constants of `skingo.go` -/

/-- `ElementTypeNormal = 0`: normal element. -/
def ElementTypeNormal : Nat := 0

/-- `ElementTypeSingle = 1`: single element. -/
def ElementTypeSingle : Nat := 1

/-- `ElementTypeContainer = 2`: root container. -/
def ElementTypeContainer : Nat := 2

/-- `uniqueOpenToken`, substituted for the template-open delimiter. -/
def uniqueOpenToken : Str := str "___GO_TEMPLATE_OPEN___"

/-- `uniqueCloseToken`, substituted for the template-close delimiter. -/
def uniqueCloseToken : Str := str "___GO_TEMPLATE_CLOSE___"

/-! ### The selector-scoping engine (`scopedCSS`, lines 279-361) -/

/-- The per-selector rewrite performed in the loop body of `scopedCSS`
(lines 300-351 of `skingo.go`).  The selector is assumed already trimmed;
an empty selector is skipped (`none`). -/
def scopeSelector (scopeClass rootElementTag : Str) (rootClasses : List Str)
    (elementType : Nat) (selector : Str) : Option Str :=
  if selector = [] then none
  else if selector = rootElementTag then
    -- it is the root element: add the class directly
    some (selector ++ '.' :: scopeClass)
  else if selector.head? = some '.' then
    let className := selector.tail
    let useDirectScope :=
      if elementType = ElementTypeSingle then true
      else rootClasses.contains className
    if useDirectScope then
      -- without space: ".class" -> ".s-xxxxx.class"
      some ('.' :: scopeClass ++ selector)
    else
      -- with space: ".class" -> ".s-xxxxx .class"
      some ('.' :: scopeClass ++ ' ' :: selector)
  else if selector.head? = some ':' then
    if rootElementTag ≠ [] then
      some (rootElementTag ++ '.' :: scopeClass ++ selector)
    else
      some ('.' :: scopeClass ++ selector)
  else if containsSub [' '] selector ∨ containsSub ['>'] selector ∨
      containsSub ['+'] selector ∨ containsSub ['~'] selector then
    -- selector with children or siblings
    some ('.' :: scopeClass ++ ' ' :: selector)
  else
    -- other element
    some ('.' :: scopeClass ++ ' ' :: selector)

/-- One iteration of the outer block loop of `scopedCSS`: rewrite a single
rule block (empty output for blocks that the Go code `continue`s over). -/
def scopedCSSBlock (scopeClass rootElementTag : Str) (rootClasses : List Str)
    (elementType : Nat) (block : Str) : Str :=
  if trimSpace block = [] then []
  else
    match splitN2 obrace block with
    | none => []
    | some (selectors, declarations) =>
      let scopedSelectors :=
        (splitOnChar ',' selectors).filterMap
          (fun s => scopeSelector scopeClass rootElementTag rootClasses elementType (trimSpace s))
      joinSep (str ", ") scopedSelectors ++ ' ' :: obrace :: declarations ++ [cbrace, '\n']

/-- `scopedCSS` (lines 279-361): split the style text into blocks on the
block-closing character and rewrite each block's selector list. -/
def scopedCSS (css scopeClass rootElementTag : Str) (rootClasses : List Str)
    (elementType : Nat) : Str :=
  ((splitOnChar cbrace css).map
    (scopedCSSBlock scopeClass rootElementTag rootClasses elementType)).flatten

/-- The per-block rewrite of `containedScopedCSS` (lines 365-408): every
selector becomes a descendant of the scope class. -/
def containedScopedCSSBlock (scopeClass : Str) (block : Str) : Str :=
  if trimSpace block = [] then []
  else
    match splitN2 obrace block with
    | none => []
    | some (selectors, declarations) =>
      let scopedSelectors :=
        (splitOnChar ',' selectors).filterMap
          (fun s =>
            if trimSpace s = [] then none
            else some ('.' :: scopeClass ++ ' ' :: trimSpace s))
      joinSep (str ", ") scopedSelectors ++ ' ' :: obrace :: declarations ++ [cbrace, '\n']

/-- `containedScopedCSS` (lines 365-408): scope every selector as a
descendant of the scope class. -/
def containedScopedCSS (css scopeClass : Str) : Str :=
  ((splitOnChar cbrace css).map (containedScopedCSSBlock scopeClass)).flatten

/-! ### The structure analyzer (`parseFile`, lines 150-263)

The Go code matches a handful of fixed regular expressions.  Each is
embedded as the deterministic scanner it denotes: every pattern used is
free of genuine backtracking because each repeated class is disjoint from
the literal that follows it (for example `\s*` is always followed by a
non-space literal, and `[^>]*` can only stop at the first `>`). -/

/-- ASCII letter, the class `[a-zA-Z]`. -/
def isAsciiAlpha (c : Char) : Bool :=
  ('a' ≤ c ∧ c ≤ 'z') ∨ ('A' ≤ c ∧ c ≤ 'Z')

/-- ASCII letter or digit, the class `[a-zA-Z0-9]`. -/
def isAsciiAlnum (c : Char) : Bool :=
  isAsciiAlpha c ∨ ('0' ≤ c ∧ c ≤ '9')

/-- `firstTagRegex = ^\s*<([a-zA-Z][a-zA-Z0-9]*)([^>]*)>`: the first
opening tag at the start of the content; returns (tag name, attribute
text).  `[^>]*` stops exactly at the first `>` (it cannot contain one). -/
def firstTagMatch (s : Str) : Option (Str × Str) :=
  match s.dropWhile regexSpace with
  | '<' :: c :: rest =>
    if isAsciiAlpha c then
      let nm := rest.takeWhile isAsciiAlnum
      let r2 := rest.dropWhile isAsciiAlnum
      let attrs := r2.takeWhile (fun d => d ≠ '>')
      match r2.dropWhile (fun d => d ≠ '>') with
      | '>' :: _ => some (c :: nm, attrs)
      | _ => none
    else none
  | _ => none

/-- A match of `classRegex = class\s*=\s*["']([^"']*)["']` starting at the
head of `s`; the capture is the attribute value. -/
def classMatchHere (s : Str) : Option Str :=
  if (str "class").isPrefixOf s then
    match (s.drop 5).dropWhile regexSpace with
    | '=' :: r2 =>
      match r2.dropWhile regexSpace with
      | q :: r4 =>
        if q = dquote ∨ q = squote then
          let val := r4.takeWhile (fun d => d ≠ dquote ∧ d ≠ squote)
          match r4.dropWhile (fun d => d ≠ dquote ∧ d ≠ squote) with
          | _ :: _ => some val
          | [] => none
        else none
      | [] => none
    | _ => none
  else none

/-- Leftmost match of `classRegex` anywhere in the attribute text. -/
def classMatch : Str → Option Str
  | [] => none
  | c :: t =>
    match classMatchHere (c :: t) with
    | some v => some v
    | none => classMatch t

/-- A match of `</\s*TAG\s*>\s*$` beginning at the head of `s` and
running to the end of the string. -/
def matchCloseTagHere (tag : Str) (s : Str) : Bool :=
  match s with
  | '<' :: '/' :: r =>
    let r2 := r.dropWhile regexSpace
    if tag.isPrefixOf r2 then
      match (r2.drop tag.length).dropWhile regexSpace with
      | '>' :: r4 => r4.all regexSpace
      | _ => false
    else false
  | _ => false

/-- `closeTagRegex.MatchString` for the pattern `</\s*TAG\s*>\s*$`:
some suffix of the content matches. -/
def endsWithCloseTag (tag : Str) : Str → Bool
  | [] => false
  | c :: t => matchCloseTagHere tag (c :: t) || endsWithCloseTag tag t

/-- `openTagRegex.ReplaceAllString(s, "")` for `^\s*<[^>]+>`: remove the
leading opening tag (with its leading whitespace) when present. -/
def stripOpenTag (s : Str) : Str :=
  match s.dropWhile regexSpace with
  | '<' :: r =>
    let inner := r.takeWhile (fun d => d ≠ '>')
    match r.dropWhile (fun d => d ≠ '>') with
    | '>' :: rest => if inner = [] then s else rest
    | _ => s
  | _ => s

/-- A match of `</\s*[^>]+>\s*$` beginning at the head of `s`.  Because
`\s*` only matches characters that `[^>]+` also accepts, the two in
sequence are exactly a non-empty run of non-`>` characters. -/
def matchCloseAnyHere (s : Str) : Bool :=
  match s with
  | '<' :: '/' :: r =>
    let inner := r.takeWhile (fun d => d ≠ '>')
    decide (inner ≠ []) &&
      (match r.dropWhile (fun d => d ≠ '>') with
       | '>' :: r4 => r4.all regexSpace
       | _ => false)
  | _ => false

/-- `closeTagRegex.ReplaceAllString(s, "")` for `</\s*[^>]+>\s*$`: the
(unique, end-anchored) leftmost match is removed, i.e. the string is cut
at the earliest position from which the pattern matches to the end. -/
def stripCloseTagEnd : Str → Str
  | [] => []
  | c :: t => if matchCloseAnyHere (c :: t) then [] else c :: stripCloseTagEnd t

/-- Replace the template delimiters with the unique tokens
(`parseFile` lines 161-162). -/
def makeSafe (trimmedContent : Str) : Str :=
  replaceAll [cbrace, cbrace] uniqueCloseToken
    (replaceAll [obrace, obrace] uniqueOpenToken trimmedContent)

/-- The root-structure facts computed by `parseFile` lines 164-203. -/
structure RootInfo where
  hasRootElement : Bool
  isSingleElement : Bool
  isRootContainer : Bool
  rootTagName : Str
  rootClasses : List Str
deriving DecidableEq

/-- The root-structure analysis of `parseFile` (lines 164-203), applied
to the token-protected content. -/
def analyzeRoot (safeContent : Str) : RootInfo :=
  match firstTagMatch safeContent with
  | none => ⟨false, false, false, [], []⟩
  | some (tagName, rootAttributes) =>
    let rootClasses :=
      match classMatch rootAttributes with
      | some classStr => goFields classStr
      | none => []
    if endsWithCloseTag tagName safeContent then
      let innerContent := stripCloseTagEnd (stripOpenTag safeContent)
      if containsSub ['<'] innerContent = false then
        ⟨true, true, false, tagName, rootClasses⟩
      else
        ⟨true, false, true, tagName, rootClasses⟩
    else
      ⟨false, false, false, tagName, rootClasses⟩

/-- The root-kind that the analysis assigns to a (trimmed) markup body in
the absence of an `unwrap` attribute: `ElementTypeSingle`,
`ElementTypeContainer`, or `ElementTypeNormal` when there is no single
root element (lines 188-201 and 243-250). -/
def rootKind (trimmedContent : Str) : Nat :=
  let info := analyzeRoot (makeSafe trimmedContent)
  if info.isSingleElement then ElementTypeSingle
  else if info.isRootContainer then ElementTypeContainer
  else ElementTypeNormal

/-! ### Scope-class injection into the markup (`parseFile`, lines 214-240) -/

/-- The literal `class="`. -/
def classAttrDq : Str := str "class=" ++ [dquote]

/-- The literal `class='`. -/
def classAttrSq : Str := str "class=" ++ [squote]

/-- The literal of `class=` followed by two opening braces. -/
def classAttrExpr : Str := str "class=" ++ [obrace, obrace]

/-- The brace-depth scan of lines 224-235: index of the first `>` at
brace depth zero. -/
def findTagEnd : Str → Int → Nat → Option Nat
  | [], _, _ => none
  | c :: rest, depth, i =>
    if c = obrace then findTagEnd rest (depth + 1) (i + 1)
    else if c = cbrace then findTagEnd rest (depth - 1) (i + 1)
    else if c = '>' ∧ depth = 0 then some i
    else findTagEnd rest depth (i + 1)

/-- Lines 216-240: add the scope class to the markup of a component with
a root element — into the first `class="`/`class='`/`class={{` occurrence,
or as a fresh attribute before the first top-level `>`. -/
def injectScopeClass (html scopeClass : Str) : Str :=
  if containsSub classAttrDq html then
    replaceFirst classAttrDq (classAttrDq ++ scopeClass ++ [' ']) html
  else if containsSub classAttrSq html then
    replaceFirst classAttrSq (classAttrSq ++ scopeClass ++ [' ']) html
  else if containsSub classAttrExpr html then
    replaceFirst classAttrExpr (classAttrDq ++ scopeClass ++ ' ' :: [obrace, obrace]) html
  else
    match findTagEnd html 0 0 with
    | some lastPos =>
      html.take lastPos ++ (str " class=" ++ [dquote] ++ scopeClass ++ [dquote]) ++ html.drop lastPos
    | none => html

/-- The markup/style processing of `parseFile` lines 211-263, given the
trimmed markup body, the extracted style text, the `unwrap` flag and the
scope class; returns the stored (HTML, CSS) pair. -/
def processTemplate (trimmedContent css : Str) (unwrap : Bool) (scopeClass : Str) :
    Str × Str :=
  let info := analyzeRoot (makeSafe trimmedContent)
  if css = [] then (trimmedContent, [])
  else if unwrap ∨ info.hasRootElement then
    if info.hasRootElement then
      let html := injectScopeClass trimmedContent scopeClass
      let elementType :=
        if info.isSingleElement ∨ unwrap then ElementTypeSingle
        else if info.isRootContainer then ElementTypeContainer
        else ElementTypeNormal
      (html, scopedCSS css scopeClass info.rootTagName info.rootClasses elementType)
    else
      (str "<div class=" ++ [dquote] ++ scopeClass ++ [dquote] ++ str " style=" ++
         [dquote] ++ str "display:contents" ++ [dquote] ++ ['>'] ++ trimmedContent ++
         str "</div>",
       containedScopedCSS css scopeClass)
  else
    (str "<div class=" ++ [dquote] ++ scopeClass ++ [dquote] ++ ['>'] ++ trimmedContent ++
       str "</div>",
     containedScopedCSS css scopeClass)

/-! ### Layout compilation (`parseLayoutFile`, lines 411-439) -/

/-- The head-end anchor `</head>`. -/
def headTag : Str := str "</head>"

/-- The body-end anchor `</body>`. -/
def bodyTag : Str := str "</body>"

/-- The style-injection placeholder inserted before the head anchor. -/
def styleInsert : Str :=
  str "\n\t<style>" ++ [obrace, obrace] ++ str " .CSS " ++ [cbrace, cbrace] ++ str "</style>\n"

/-- The script-injection placeholder inserted before the body anchor. -/
def scriptInsert : Str :=
  str "\n\t<script>" ++ [obrace, obrace] ++ str " .JS " ++ [cbrace, cbrace] ++ str "</script>\n"

/-- `parseLayoutFile` (lines 411-439): insert the style placeholder before
the first `</head>` and then the script placeholder before the first
`</body>` of the result; error when either anchor is missing. -/
def parseLayoutFile (content : Str) : Except Str Str :=
  match strIndex headTag content with
  | none => Except.error (str "layout template must contain </head> tag")
  | some headCloseIndex =>
    let html := content.take headCloseIndex ++ styleInsert ++ content.drop headCloseIndex
    match strIndex bodyTag html with
    | none => Except.error (str "layout template must contain </body> tag")
    | some bodyCloseIndex =>
      Except.ok (html.take bodyCloseIndex ++ scriptInsert ++ html.drop bodyCloseIndex)

/-- Substring occurrence as a proposition: `needle` occurs in `s` at some
position (`strings.Contains`, specification-level). -/
def containsP (needle s : Str) : Prop := ∃ i, needle <+: s.drop i

/-! ### Isolated rendering (`ExecuteIsolated`, lines 777-818) -/

/-- Leftmost match of `htmlRegex = (?s)<template([^>]*)>(.*?)</template>`,
returning the two captures (attribute text, inner content).  The lazy
`(.*?)` stops at the first `</template>` after the opening tag; if the
first `<template` has no `>` after it, or no `</template>` follows, then
no later start position can match either (any `>` or `</template>`
witnessing a later match would already witness the earlier one). -/
def findTemplateBlock (s : Str) : Option (Str × Str) :=
  match strIndex (str "<template") s with
  | none => none
  | some p =>
    let afterOpen := s.drop (p + 9)
    let attrs := afterOpen.takeWhile (fun d => d ≠ '>')
    match afterOpen.dropWhile (fun d => d ≠ '>') with
    | '>' :: afterGt =>
      match strIndex (str "</template>") afterGt with
      | none => none
      | some q => some (attrs, afterGt.take q)
    | _ => none

/-- The template text that `ExecuteIsolated` compiles (lines 795-800):
when `htmlRegex` matches, the Go code reads `matches[1]` — which is the
*attribute* capture of the regex, not the inner content — otherwise the
whole document text. -/
def isolatedHTMLContent (content : Str) : Str :=
  match findTemplateBlock content with
  | some m => m.1
  | none => content

/-! ### Composition runtime (`ParseDirs` closures, lines 490-607) -/

/-- A value passed through the template engine's `interface{}` arguments;
`nil` models the Go `nil` interface value. -/
inductive GoValue where
  | nil : GoValue
  | strv : Str → GoValue
  | num : Int → GoValue
deriving DecidableEq

/-- `compCall` (lines 490-493): one frame of the component call stack. -/
structure compCall where
  Args : List GoValue
  Name : Str
deriving DecidableEq

/-- The push performed by `comp` (lines 560-565): append the frame at the
end of the stack (the top of the stack is the last element). -/
def compPush (compStack : List compCall) (c : compCall) : List compCall :=
  compStack ++ [c]

/-- The deferred pop of `comp` (lines 567-574): drop the last frame when
the stack is non-empty. -/
def compPop (compStack : List compCall) : List compCall :=
  if compStack.length > 0 then compStack.dropLast else compStack

/-- `param` (lines 522-535): the `index`-th positional argument of the
top frame; `nil` when the stack is empty or the index is out of range. -/
def param (compStack : List compCall) (index : Int) : GoValue :=
  if compStack.length = 0 then GoValue.nil
  else
    match compStack.getLast? with
    | none => GoValue.nil
    | some current =>
      if index < 0 ∨ (current.Args.length : Int) ≤ index then GoValue.nil
      else current.Args.getD index.toNat GoValue.nil

/-- `paramOr` (lines 536-552): like `param` but with a caller-supplied
default for the empty-stack, out-of-range and stored-`nil` cases. -/
def paramOr (compStack : List compCall) (index : Int) (defaultValue : GoValue) : GoValue :=
  if compStack.length = 0 then defaultValue
  else
    match compStack.getLast? with
    | none => defaultValue
    | some current =>
      if index < 0 ∨ (current.Args.length : Int) ≤ index then defaultValue
      else if current.Args.getD index.toNat GoValue.nil = GoValue.nil then defaultValue
      else current.Args.getD index.toNat GoValue.nil

/-- `comp` (lines 553-606), abstracted over the nested evaluation: push
the new frame, evaluate (which may mutate the stack and may fail), and
pop unconditionally — on both the success and the error path — before
returning. -/
def comp (compStack : List compCall) (c : compCall)
    (eval : List compCall → Except Str Str × List compCall) :
    Except Str Str × List compCall :=
  let pushed := compPush compStack c
  let res := eval pushed
  (res.1, compPop res.2)

/-! ### Shared render state (`TemplateSet`, lines 35-46 and 490-498)

`ParseDirs` declares a single `compStack` captured by the `param`,
`paramOr` and `comp` closures it installs, and a single `usedTemplates`
map lives in the `TemplateSet`; every render of the set operates on these
same two objects (each individual operation is mutex-guarded, so an
interleaving of renders is an interleaving of the atomic operations
below). -/

/-- The mutable state one `TemplateSet` shares among all its renders. -/
structure SetState where
  compStack : List compCall
  usedTemplates : List Str
deriving DecidableEq

/-- One atomic, mutex-guarded operation on the shared state: the `comp`
push (lines 560-565), the deferred `comp` pop (lines 567-574), the
used-set reset at the start of `Execute` (lines 699-702), and the
used-set insertion of `_register_template`/`comp` (lines 502-507,
556-558). -/
inductive RenderOp where
  | push : compCall → RenderOp
  | pop : RenderOp
  | clearUsed : RenderOp
  | markUsed : Str → RenderOp
deriving DecidableEq

/-- Apply one atomic operation to the shared state. -/
def applyOp (st : SetState) : RenderOp → SetState
  | RenderOp.push c => { st with compStack := compPush st.compStack c }
  | RenderOp.pop => { st with compStack := compPop st.compStack }
  | RenderOp.clearUsed => { st with usedTemplates := [] }
  | RenderOp.markUsed n =>
    { st with usedTemplates :=
        if st.usedTemplates.contains n then st.usedTemplates else st.usedTemplates ++ [n] }

/-- Run an interleaved sequence of atomic operations (possibly issued by
different concurrent renders) on the shared state. -/
def runOps : SetState → List RenderOp → SetState :=
  List.foldl applyOp

/-! ### `Execute` precondition checks (lines 689-697) -/

/-- The observable outcome of one `Execute` call: the byte chunks written
to the output writer, and the returned error (if any). -/
structure ExecResult where
  written : List Str
  err : Option Str
deriving DecidableEq

/-- `Execute` (lines 689-756), abstracted over the two template
evaluations it may perform: the name lookup and the layout check happen
before anything is evaluated or written; only a fully successful run
writes to the output writer. -/
def ExecuteModel (templates : List Str) (layoutDefined : Bool) (name : Str)
    (render : Unit → Except Str Str) (layoutRender : Str → Except Str Str) : ExecResult :=
  if ¬ templates.contains name then
    { written := [], err := some (str "template " ++ name ++ str " not found") }
  else if ¬ layoutDefined then
    { written := [], err := some (str "layout template not defined") }
  else
    match render () with
    | Except.error e => { written := [], err := some e }
    | Except.ok content =>
      match layoutRender content with
      | Except.error e => { written := [], err := some e }
      | Except.ok out => { written := [out], err := none }

/-! ## Theorems -/

/-- The top frame of a non-empty stack is its last element, so `param` on
`s ++ [c]` is determined by `c` alone. -/
theorem param_concat (s : List compCall) (c : compCall) (i : Int) :
    param (s ++ [c]) i =
      if i < 0 ∨ (c.Args.length : Int) ≤ i then GoValue.nil
      else c.Args.getD i.toNat GoValue.nil := by
  simp [param, List.getLast?_concat]

/-- `paramOr` on `s ++ [c]` is determined by `c` and the default alone. -/
theorem paramOr_concat (s : List compCall) (c : compCall) (i : Int) (d : GoValue) :
    paramOr (s ++ [c]) i d =
      if i < 0 ∨ (c.Args.length : Int) ≤ i then d
      else if c.Args.getD i.toNat GoValue.nil = GoValue.nil then d
      else c.Args.getD i.toNat GoValue.nil := by
  simp [paramOr, List.getLast?_concat]

/-- C1: for a Single root, a selector equal to the root tag gets the scope
class appended directly (`tag.scopeClass`), and every class selector gets
the scope class prepended without a space (`.scopeClass.name`); on the
concrete input of the claim the whole engine produces exactly
`button.s-abc123 {color:red}` and `.s-abc123.primary {color:blue}` (the
engine reattaches each declaration block as `" {" ... "}\n"`). -/
theorem claim_C1 :
    (∀ (scopeClass rootTag : Str) (rootClasses : List Str),
      rootTag ≠ [] →
      scopeSelector scopeClass rootTag rootClasses ElementTypeSingle rootTag =
        some (rootTag ++ '.' :: scopeClass)) ∧
    (∀ (scopeClass rootTag name : Str) (rootClasses : List Str),
      '.' :: name ≠ rootTag →
      scopeSelector scopeClass rootTag rootClasses ElementTypeSingle ('.' :: name) =
        some ('.' :: scopeClass ++ '.' :: name)) ∧
    scopedCSS (str "button\x7bcolor:red\x7d.primary\x7bcolor:blue\x7d")
        (str "s-abc123") (str "button") [] ElementTypeSingle =
      str "button.s-abc123 \x7bcolor:red\x7d\n.s-abc123.primary \x7bcolor:blue\x7d\n" := by
  refine ⟨?_, ?_, by decide⟩
  · intro scopeClass rootTag rootClasses h
    simp [scopeSelector, h]
  · intro scopeClass rootTag name rootClasses h
    simp [scopeSelector, h, ElementTypeSingle]

/-- Witness for C1 at the claim's concrete scope token and root tag. -/
theorem claim_C1_witness :
    scopeSelector (str "s-abc123") (str "button") [] ElementTypeSingle (str "button") =
      some (str "button" ++ '.' :: str "s-abc123") ∧
    scopeSelector (str "s-abc123") (str "button") [] ElementTypeSingle ('.' :: str "primary") =
      some ('.' :: str "s-abc123" ++ '.' :: str "primary") :=
  ⟨claim_C1.1 (str "s-abc123") (str "button") [] (by decide),
   claim_C1.2.1 (str "s-abc123") (str "button") (str "primary") [] (by decide)⟩

/-- C2: for a Container root, a class selector `.name` is scoped without a
space exactly when `name` is one of the root's own classes, and as a
descendant (with a space) otherwise; on the claim's concrete input the
engine produces `.s-xyz987.card` and `.s-xyz987 .title`. -/
theorem claim_C2 :
    (∀ (scopeClass rootTag name : Str) (rootClasses : List Str),
      '.' :: name ≠ rootTag →
      rootClasses.contains name = true →
      scopeSelector scopeClass rootTag rootClasses ElementTypeContainer ('.' :: name) =
        some ('.' :: scopeClass ++ '.' :: name)) ∧
    (∀ (scopeClass rootTag name : Str) (rootClasses : List Str),
      '.' :: name ≠ rootTag →
      rootClasses.contains name = false →
      scopeSelector scopeClass rootTag rootClasses ElementTypeContainer ('.' :: name) =
        some ('.' :: scopeClass ++ ' ' :: '.' :: name)) ∧
    scopedCSS (str ".card\x7bborder:1px\x7d.title\x7bfont-weight:bold\x7d")
        (str "s-xyz987") (str "div") [str "card"] ElementTypeContainer =
      str ".s-xyz987.card \x7bborder:1px\x7d\n.s-xyz987 .title \x7bfont-weight:bold\x7d\n" := by
  refine ⟨?_, ?_, by decide⟩
  · intro scopeClass rootTag name rootClasses h hmem
    have hm : name ∈ rootClasses := List.elem_iff.mp hmem
    simp [scopeSelector, h, ElementTypeContainer, ElementTypeSingle, hm]
  · intro scopeClass rootTag name rootClasses h hmem
    have hm : name ∉ rootClasses := by
      intro hmm
      have hmem' : List.elem name rootClasses = false := hmem
      rw [List.elem_iff.mpr hmm] at hmem'
      exact absurd hmem' (by simp)
    simp [scopeSelector, h, ElementTypeContainer, ElementTypeSingle, hm]

/-- Witness for C2 at the claim's concrete root-class set and token. -/
theorem claim_C2_witness :
    scopeSelector (str "s-xyz987") (str "div") [str "card"] ElementTypeContainer
        ('.' :: str "card") =
      some ('.' :: str "s-xyz987" ++ '.' :: str "card") ∧
    scopeSelector (str "s-xyz987") (str "div") [str "card"] ElementTypeContainer
        ('.' :: str "title") =
      some ('.' :: str "s-xyz987" ++ ' ' :: '.' :: str "title") :=
  ⟨claim_C2.1 (str "s-xyz987") (str "div") (str "card") [str "card"] (by decide) (by decide),
   claim_C2.2.1 (str "s-xyz987") (str "div") (str "title") [str "card"] (by decide) (by decide)⟩

/-- C3: the structure analyzer classifies `<b>{{x}}</b>` as Single,
`<div><span/></div>` as Container and `<b/>Other<i/>` as Normal; and on a
Normal body without `unwrap`, `parseFile` wraps the markup in a synthetic
`<div>` carrying the scope class and rewrites every style selector as a
descendant of the scope class. -/
theorem claim_C3 :
    rootKind (str "<b>\x7b\x7bx\x7d\x7d</b>") = ElementTypeSingle ∧
    rootKind (str "<div><span/></div>") = ElementTypeContainer ∧
    rootKind (str "<b/>Other<i/>") = ElementTypeNormal ∧
    processTemplate (str "<b/>Other<i/>") (str ".x\x7ba:b\x7dp\x7bc:d\x7d") false (str "s-n") =
      (str "<div class=\x22s-n\x22><b/>Other<i/></div>",
       str ".s-n .x \x7ba:b\x7d\n.s-n p \x7bc:d\x7d\n") := by
  decide

/-- C4 counterexample: the markup `<div><span class="a">x</span></div>`
has a detected (Container) root whose opening tag carries no class
attribute; the claim then requires the scope class to be inserted before
the root tag's closing `>`, but the code rewrites the *first* `class="`
occurrence anywhere in the markup — here the child `<span>`'s — leaving
the root untouched. -/
theorem claim_C4_counterexample :
    rootKind (str "<div><span class=\x22a\x22>x</span></div>") = ElementTypeContainer ∧
    injectScopeClass (str "<div><span class=\x22a\x22>x</span></div>") (str "s-k") =
      str "<div><span class=\x22s-k a\x22>x</span></div>" ∧
    injectScopeClass (str "<div><span class=\x22a\x22>x</span></div>") (str "s-k") ≠
      str "<div class=\x22s-k\x22><span class=\x22a\x22>x</span></div>" := by
  decide

/-- C4 (amended): the scope class is injected into the first
`class="` / `class='` / `class={{` occurrence anywhere in the markup
(checked in that order, not necessarily on the root element), or, when
none of the three patterns occurs, inserted as a new class attribute
immediately before the first `>` at brace depth zero, so a `>` inside an
expression embedded in another attribute is not mistaken for the tag
end. -/
theorem claim_C4 :
    injectScopeClass (str "<div class=\x22a b\x22>t</div>") (str "s-1") =
      str "<div class=\x22s-1 a b\x22>t</div>" ∧
    injectScopeClass (str "<div class=" ++ [squote] ++ str "a" ++ [squote] ++ str ">t</div>")
        (str "s-1") =
      str "<div class=" ++ [squote] ++ str "s-1 a" ++ [squote] ++ str ">t</div>" ∧
    injectScopeClass (str "<div class=" ++ [obrace, obrace] ++ str ".C" ++ [cbrace, cbrace] ++
        str ">t</div>") (str "s-1") =
      str "<div class=\x22s-1 " ++ [obrace, obrace] ++ str ".C" ++ [cbrace, cbrace] ++
        str ">t</div>" ∧
    injectScopeClass (str "<div data-v=" ++ [obrace, obrace] ++ str "printf \x22>\x22" ++
        [cbrace, cbrace] ++ str ">t</div>") (str "s-1") =
      str "<div data-v=" ++ [obrace, obrace] ++ str "printf \x22>\x22" ++ [cbrace, cbrace] ++
        str " class=\x22s-1\x22>t</div>" ∧
    injectScopeClass (str "<div><span class=\x22a\x22>x</span></div>") (str "s-k") =
      str "<div><span class=\x22s-k a\x22>x</span></div>" := by
  decide

/-- C5: `comp` pushes one frame and pops it unconditionally before
returning, on the success path and the error path alike; so whenever the
nested evaluation is stack-balanced, the stack depth after `comp` returns
equals the depth before the call, and after two sibling invocations it
equals the depth before the first. -/
theorem claim_C5 :
    ∀ (stack : List compCall) (c₁ c₂ : compCall)
      (eval₁ eval₂ : List compCall → Except Str Str × List compCall),
      (∀ s, ((eval₁ s).2).length = s.length) →
      (∀ s, ((eval₂ s).2).length = s.length) →
      ((comp stack c₁ eval₁).2).length = stack.length ∧
      ((comp ((comp stack c₁ eval₁).2) c₂ eval₂).2).length = stack.length := by
  have key : ∀ (s : List compCall) (c : compCall)
      (e : List compCall → Except Str Str × List compCall),
      (∀ s', ((e s').2).length = s'.length) → ((comp s c e).2).length = s.length := by
    intro s c e he
    have hl : ((e (compPush s c)).2).length = s.length + 1 := by
      rw [he]; simp [compPush]
    simp [comp, compPop, hl]
  intro stack c₁ c₂ e₁ e₂ h₁ h₂
  exact ⟨key stack c₁ e₁ h₁, by rw [key _ c₂ e₂ h₂, key stack c₁ e₁ h₁]⟩

/-- Witness for C5: one succeeding and one failing sibling invocation,
starting from the empty stack. -/
theorem claim_C5_witness :
    ((comp [] ⟨[GoValue.num 1], str "a"⟩ (fun s => (Except.ok (str "out"), s))).2).length = 0 ∧
    ((comp ((comp [] ⟨[GoValue.num 1], str "a"⟩ (fun s => (Except.ok (str "out"), s))).2)
        ⟨[], str "b"⟩ (fun s => (Except.error (str "boom"), s))).2).length = 0 :=
  claim_C5 [] ⟨[GoValue.num 1], str "a"⟩ ⟨[], str "b"⟩
    (fun s => (Except.ok (str "out"), s)) (fun s => (Except.error (str "boom"), s))
    (fun _ => rfl) (fun _ => rfl)

/-- C6: `param` returns the top frame's `i`-th argument and `nil` on an
empty stack or out-of-range index; `paramOr` returns the default on an
empty stack, an out-of-range index or a stored `nil`, and the stored
argument otherwise; and both read only the top frame — the result does
not depend on the frames below the top. -/
theorem claim_C6 :
    (∀ i : Int, param [] i = GoValue.nil) ∧
    (∀ (s : List compCall) (c : compCall) (i : Int),
      i < 0 ∨ (c.Args.length : Int) ≤ i → param (s ++ [c]) i = GoValue.nil) ∧
    (∀ (s : List compCall) (c : compCall) (i : Nat) (h : i < c.Args.length),
      param (s ++ [c]) (i : Int) = c.Args.get ⟨i, h⟩) ∧
    (∀ (i : Int) (d : GoValue), paramOr [] i d = d) ∧
    (∀ (s : List compCall) (c : compCall) (i : Int) (d : GoValue),
      i < 0 ∨ (c.Args.length : Int) ≤ i → paramOr (s ++ [c]) i d = d) ∧
    (∀ (s : List compCall) (c : compCall) (i : Nat) (h : i < c.Args.length) (d : GoValue),
      c.Args.get ⟨i, h⟩ = GoValue.nil → paramOr (s ++ [c]) (i : Int) d = d) ∧
    (∀ (s : List compCall) (c : compCall) (i : Nat) (h : i < c.Args.length) (d : GoValue),
      c.Args.get ⟨i, h⟩ ≠ GoValue.nil → paramOr (s ++ [c]) (i : Int) d = c.Args.get ⟨i, h⟩) ∧
    (∀ (s₁ s₂ : List compCall) (c : compCall) (i : Int),
      param (s₁ ++ [c]) i = param (s₂ ++ [c]) i) ∧
    (∀ (s₁ s₂ : List compCall) (c : compCall) (i : Int) (d : GoValue),
      paramOr (s₁ ++ [c]) i d = paramOr (s₂ ++ [c]) i d) := by
  have hget : ∀ (c : compCall) (i : Nat) (h : i < c.Args.length),
      c.Args.getD ((i : Int)).toNat GoValue.nil = c.Args.get ⟨i, h⟩ := by
    intro c i h
    simp [List.getD_eq_getElem?_getD, List.getElem?_eq_getElem h]
  have hin : ∀ (i : Nat) (c : compCall), i < c.Args.length →
      ¬ ((i : Int) < 0 ∨ (c.Args.length : Int) ≤ (i : Int)) := by
    intro i c h
    push_neg
    constructor <;> [positivity; exact_mod_cast h]
  refine ⟨fun i => by simp [param], ?_, ?_, fun i d => by simp [paramOr], ?_, ?_, ?_, ?_, ?_⟩
  · intro s c i h; rw [param_concat, if_pos h]
  · intro s c i h
    rw [param_concat, if_neg (hin i c h), hget c i h]
  · intro s c i d h; rw [paramOr_concat, if_pos h]
  · intro s c i h d hnil
    rw [paramOr_concat, if_neg (hin i c h), hget c i h, if_pos hnil]
  · intro s c i h d hnil
    rw [paramOr_concat, if_neg (hin i c h), hget c i h, if_neg hnil]
  · intro s₁ s₂ c i; rw [param_concat, param_concat]
  · intro s₁ s₂ c i d; rw [paramOr_concat, paramOr_concat]

/-- Witness for C6 on a concrete two-argument frame whose first stored
argument is `nil`. -/
theorem claim_C6_witness :
    param ([] ++ [(⟨[GoValue.nil, GoValue.num 3], str "c"⟩ : compCall)]) (5 : Int) =
      GoValue.nil ∧
    param ([] ++ [(⟨[GoValue.nil, GoValue.num 3], str "c"⟩ : compCall)]) ((1 : Nat) : Int) =
      GoValue.num 3 ∧
    paramOr ([] ++ [(⟨[GoValue.nil, GoValue.num 3], str "c"⟩ : compCall)]) ((0 : Nat) : Int)
        (GoValue.num 9) = GoValue.num 9 ∧
    paramOr ([] ++ [(⟨[GoValue.nil, GoValue.num 3], str "c"⟩ : compCall)]) ((1 : Nat) : Int)
        (GoValue.num 9) = GoValue.num 3 ∧
    param ([⟨[GoValue.num 7], str "p"⟩] ++ [(⟨[GoValue.nil, GoValue.num 3], str "c"⟩ : compCall)])
        ((1 : Nat) : Int) =
      param ([] ++ [(⟨[GoValue.nil, GoValue.num 3], str "c"⟩ : compCall)]) ((1 : Nat) : Int) :=
  ⟨claim_C6.2.1 [] _ 5 (Or.inr (by decide)),
   claim_C6.2.2.1 [] _ 1 (by decide),
   claim_C6.2.2.2.2.2.1 [] _ 0 (by decide) (GoValue.num 9) (by decide),
   claim_C6.2.2.2.2.2.2.1 [] _ 1 (by decide) (GoValue.num 9) (by decide),
   claim_C6.2.2.2.2.2.2.2.1 [⟨[GoValue.num 7], str "p"⟩] [] _ ((1 : Nat) : Int)⟩

/-- A `strIndex` hit is an occurrence: the needle is a prefix of the
suffix starting at the returned index. -/
theorem strIndex_some (n : Str) :
    ∀ (s : Str) (i : Nat), strIndex n s = some i → n <+: s.drop i := by
  intro s
  induction s with
  | nil =>
    intro i h
    simp only [strIndex] at h
    by_cases hn : n = []
    · subst hn
      simp at h
      subst h
      simp
    · rw [if_neg hn] at h
      exact absurd h (by simp)
  | cons c t ih =>
    intro i h
    simp only [strIndex] at h
    by_cases hp : n.isPrefixOf (c :: t)
    · rw [if_pos hp] at h
      have h0 : i = 0 := by
        have := h
        simp at this
        omega
      subst h0
      simpa using List.isPrefixOf_iff_prefix.mp hp
    · rw [if_neg hp] at h
      rcases Option.map_eq_some'.mp h with ⟨j, hj, rfl⟩
      simpa using ih j hj

/-- `strIndex` finds the needle exactly when it occurs somewhere. -/
theorem strIndex_isSome_iff (n s : Str) :
    (strIndex n s).isSome = true ↔ containsP n s := by
  constructor
  · intro h
    rcases Option.isSome_iff_exists.mp h with ⟨i, hi⟩
    exact ⟨i, strIndex_some n s i hi⟩
  · rintro ⟨i, hi⟩
    induction s generalizing i with
    | nil =>
      simp only [List.drop_nil, List.prefix_nil] at hi
      simp [strIndex, hi]
    | cons c t ih =>
      simp only [strIndex]
      by_cases hp : n.isPrefixOf (c :: t)
      · simp [hp]
      · rw [if_neg hp]
        match i with
        | 0 =>
          exact absurd (List.isPrefixOf_iff_prefix.mpr (by simpa using hi)) hp
        | j + 1 =>
          simpa using ih j (by simpa using hi)

/-- Splitting an occurrence in `a ++ b`: it lies inside `a`, inside `b`,
or straddles the junction (a non-trivial split of the needle into a
suffix of `a` and a prefix of `b`). -/
theorem occ_split {n a b : Str} {i : Nat} (h : n <+: (a ++ b).drop i) :
    (n <+: a.drop i ∧ i + n.length ≤ a.length) ∨
    (a.length ≤ i ∧ n <+: b.drop (i - a.length)) ∨
    (∃ k, 0 < k ∧ k < n.length ∧ n.take k = a.drop i ∧ n.drop k <+: b ∧ i < a.length) := by
  rw [List.drop_append_eq_append_drop] at h
  by_cases ha : a.length ≤ i
  · right; left
    refine ⟨ha, ?_⟩
    rwa [List.drop_eq_nil_of_le ha, List.nil_append] at h
  · push_neg at ha
    have hb0 : i - a.length = 0 := Nat.sub_eq_zero_of_le (le_of_lt ha)
    rw [hb0, List.drop_zero] at h
    have hlen : (a.drop i).length = a.length - i := List.length_drop i a
    by_cases hn : n.length ≤ a.length - i
    · left
      have hx := List.prefix_iff_eq_take.mp h
      rw [List.take_append_of_le_length (by omega)] at hx
      exact ⟨List.prefix_iff_eq_take.mpr hx, by omega⟩
    · right; right
      push_neg at hn
      have hx := List.prefix_iff_eq_take.mp h
      rw [List.take_append_eq_append_take, List.take_of_length_le (by omega)] at hx
      refine ⟨a.length - i, by omega, hn, ?_, ?_, ha⟩
      · rw [hx, show a.length - i = (a.drop i).length from hlen.symm, List.take_left]
      · rw [hx, show a.length - i = (a.drop i).length from hlen.symm, List.drop_left]
        exact List.take_prefix _ _

/-- An occurrence in `a` is an occurrence in `a ++ b`. -/
theorem containsP_append_left {n a : Str} (b : Str) (h : containsP n a) :
    containsP n (a ++ b) := by
  obtain ⟨i, hi⟩ := h
  refine ⟨i, ?_⟩
  rw [List.drop_append_eq_append_drop]
  exact hi.trans (List.prefix_append _ _)

/-- An occurrence in `b` is an occurrence in `a ++ b`. -/
theorem containsP_append_right {n b : Str} (a : Str) (h : containsP n b) :
    containsP n (a ++ b) := by
  obtain ⟨i, hi⟩ := h
  exact ⟨a.length + i, by rwa [List.drop_append]⟩

/-- The head of the left part of an append that equals a cons. -/
theorem head_of_append_cons {x t rest : Str} {c : Char}
    (h : x ++ t = c :: rest) (hx : x ≠ []) : x.head? = some c := by
  cases x with
  | nil => exact absurd rfl hx
  | cons a y =>
    rw [List.cons_append] at h
    rw [List.head?_cons]
    exact congrArg some (List.head_eq_of_cons_eq h)

/-- A prefix of an append is determined on the left part. -/
theorem prefix_take_eq {x y r : Str} (h : x <+: y ++ r) :
    x.take y.length = y.take x.length := by
  have hx := List.prefix_iff_eq_take.mp h
  calc x.take y.length
      = ((y ++ r).take x.length).take y.length := by rw [← hx]
    _ = (y ++ r).take (min y.length x.length) := List.take_take _ _ _
    _ = y.take (min y.length x.length) :=
        List.take_append_of_le_length (Nat.min_le_left _ _)
    _ = y.take x.length := List.take_eq_take.mpr (by omega)

/-- No non-trivial suffix piece of `</body>` is empty. -/
theorem bodyTag_drop_ne_nil :
    ∀ k : Nat, k < 7 → 0 < k → bodyTag.drop k ≠ [] := by decide

/-- No non-trivial suffix piece of `</body>` starts with a newline (the
first character of the style placeholder). -/
theorem bodyTag_drop_head_ne_nl :
    ∀ k : Nat, k < 7 → 0 < k → ¬ (bodyTag.drop k).head? = some '\n' := by decide

/-- No non-trivial suffix piece of `</body>` is a prefix of `</head>`. -/
theorem bodyTag_drop_not_prefix_head :
    ∀ k : Nat, k < 7 → 0 < k → ¬ bodyTag.drop k <+: headTag := by decide

/-- No non-trivial prefix piece of `</body>` is a suffix of the style
placeholder. -/
theorem bodyTag_take_ne_style_drop :
    ∀ k : Nat, k < 7 → 0 < k → ∀ j : Nat, j < 28 → bodyTag.take k ≠ styleInsert.drop j := by
  decide

/-- `</body>` does not occur inside the style placeholder. -/
theorem bodyTag_not_in_style : (strIndex bodyTag styleInsert).isSome = false := by decide

/-- Inserting the style placeholder at the position of a `</head>`
occurrence neither destroys nor creates an occurrence of `</body>`. -/
theorem containsP_body_insert_iff {content : Str} {i : Nat}
    (hi : headTag <+: content.drop i) :
    containsP bodyTag (content.take i ++ styleInsert ++ content.drop i) ↔
      containsP bodyTag content := by
  have hS28 : styleInsert.length = 28 := by decide
  have hB7 : bodyTag.length = 7 := by decide
  constructor
  · rintro ⟨i₀, h₀⟩
    rw [List.append_assoc] at h₀
    rcases occ_split h₀ with ⟨hin, _⟩ | ⟨_, hin⟩ | ⟨k, hk0, hk7, htake, hdrop, _⟩
    · rw [← List.take_append_drop i content]
      exact containsP_append_left _ ⟨i₀, hin⟩
    · rcases occ_split hin with ⟨hin2, _⟩ | ⟨_, hin2⟩ | ⟨k, hk0, hk7, htake, _, hjS⟩
      · exact absurd ((strIndex_isSome_iff bodyTag styleInsert).mpr ⟨_, hin2⟩)
          (by rw [bodyTag_not_in_style]; simp)
      · rw [← List.take_append_drop i content]
        exact containsP_append_right _ ⟨_, hin2⟩
      · exact absurd htake
          (bodyTag_take_ne_style_drop k (by omega) hk0 _ (by omega))
    · obtain ⟨t, ht⟩ := hdrop
      have hScons : styleInsert ++ content.drop i =
          '\n' :: (styleInsert.tail ++ content.drop i) := rfl
      rw [hScons] at ht
      have hhead := head_of_append_cons ht (bodyTag_drop_ne_nil k (by omega) hk0)
      exact absurd hhead (bodyTag_drop_head_ne_nl k (by omega) hk0)
  · rintro ⟨i₀, h₀⟩
    rw [← List.take_append_drop i content] at h₀
    rw [List.append_assoc]
    rcases occ_split h₀ with ⟨hin, _⟩ | ⟨_, hin⟩ | ⟨k, hk0, hk7, _, hdrop, _⟩
    · exact containsP_append_left _ ⟨i₀, hin⟩
    · exact containsP_append_right _ (containsP_append_right _ ⟨_, hin⟩)
    · have hlen : (bodyTag.drop k).length ≤ headTag.length := by
        rw [List.length_drop]
        exact le_trans (Nat.sub_le _ _) (by decide)
      have := List.prefix_of_prefix_length_le hdrop hi hlen
      exact absurd this (bodyTag_drop_not_prefix_head k (by omega) hk0)

/-- C7: shell compilation fails exactly when the document lacks a
`</head>` anchor or lacks a `</body>` anchor; and on success the compiled
shell contains the style placeholder immediately before a `</head>`
anchor and the script placeholder immediately before a `</body>`
anchor. -/
theorem claim_C7 :
    ∀ content : Str,
      ((∃ e, parseLayoutFile content = Except.error e) ↔
        (containsSub headTag content = false ∨ containsSub bodyTag content = false)) ∧
      (∀ r, parseLayoutFile content = Except.ok r →
        (∃ p q, r = p ++ (styleInsert ++ headTag) ++ q) ∧
        (∃ p q, r = p ++ (scriptInsert ++ bodyTag) ++ q)) := by
  intro content
  cases hh : strIndex headTag content with
  | none =>
    have hpl : parseLayoutFile content =
        Except.error (str "layout template must contain </head> tag") := by
      unfold parseLayoutFile
      rw [hh]
    refine ⟨⟨fun _ => Or.inl (by simp [containsSub, hh]), fun _ => ⟨_, hpl⟩⟩,
      fun r hr => ?_⟩
    rw [hpl] at hr
    exact absurd hr (by simp)
  | some i =>
    have hi : headTag <+: content.drop i := strIndex_some _ _ _ hh
    have hhead_true : containsSub headTag content = true := by simp [containsSub, hh]
    cases hb : strIndex bodyTag (content.take i ++ styleInsert ++ content.drop i) with
    | none =>
      have hpl : parseLayoutFile content =
          Except.error (str "layout template must contain </body> tag") := by
        unfold parseLayoutFile
        rw [hh]
        dsimp only
        rw [hb]
      refine ⟨⟨fun _ => Or.inr ?_, fun _ => ⟨_, hpl⟩⟩, fun r hr => ?_⟩
      · by_contra hc
        rw [Bool.not_eq_false] at hc
        have hc' := (strIndex_isSome_iff bodyTag content).mp hc
        have h2 := (containsP_body_insert_iff hi).mpr hc'
        have h3 := (strIndex_isSome_iff _ _).mpr h2
        rw [hb] at h3
        exact absurd h3 (by simp)
      · rw [hpl] at hr
        exact absurd hr (by simp)
    | some j =>
      have hj : bodyTag <+:
          (content.take i ++ styleInsert ++ content.drop i).drop j :=
        strIndex_some _ _ _ hb
      have hpl : parseLayoutFile content =
          Except.ok ((content.take i ++ styleInsert ++ content.drop i).take j ++
            scriptInsert ++ (content.take i ++ styleInsert ++ content.drop i).drop j) := by
        unfold parseLayoutFile
        rw [hh]
        dsimp only
        rw [hb]
      have hbody_true : containsSub bodyTag content = true := by
        have h1 : containsP bodyTag (content.take i ++ styleInsert ++ content.drop i) :=
          ⟨j, hj⟩
        exact (strIndex_isSome_iff _ _).mpr ((containsP_body_insert_iff hi).mp h1)
      obtain ⟨rest, hrest⟩ := hi
      constructor
      · constructor
        · rintro ⟨e, he⟩
          rw [hpl] at he
          exact absurd he (by simp)
        · rintro (hc | hc)
          · rw [hhead_true] at hc
            exact absurd hc (by simp)
          · rw [hbody_true] at hc
            exact absurd hc (by simp)
      · intro r hr
        rw [hpl] at hr
        have hr' : r = (content.take i ++ styleInsert ++ content.drop i).take j ++
            scriptInsert ++ (content.take i ++ styleInsert ++ content.drop i).drop j :=
          (Except.ok.inj hr).symm
        have hS28 : styleInsert.length = 28 := by decide
        have hH7 : headTag.length = 7 := by decide
        have hB7 : bodyTag.length = 7 := by decide
        have hhtml2 : content.take i ++ styleInsert ++ content.drop i =
            (content.take i ++ (styleInsert ++ headTag)) ++ rest := by
          rw [← hrest]
          simp [List.append_assoc]
        have hTlen : (content.take i ++ (styleInsert ++ headTag)).length =
            (content.take i).length + 35 := by
          simp [List.length_append, hS28, hH7]
        constructor
        · -- the style placeholder sits immediately before a head anchor in r
          have hj_out : j ≤ (content.take i).length ∨ (content.take i).length + 35 ≤ j := by
            by_contra hcon
            push_neg at hcon
            obtain ⟨h1, h2⟩ := hcon
            have hdj : (content.take i ++ styleInsert ++ content.drop i).drop j =
                (styleInsert ++ headTag).drop (j - (content.take i).length) ++ rest := by
              rw [hhtml2, List.drop_append_eq_append_drop, List.drop_append_eq_append_drop]
              rw [List.drop_eq_nil_of_le (le_of_lt h1), List.nil_append]
              have h0 : j - (content.take i ++ (styleInsert ++ headTag)).length = 0 := by
                omega
              rw [h0, List.drop_zero]
            have hm := hj
            rw [hdj] at hm
            have hfact : ∀ m : Nat, m < 35 → 0 < m →
                ¬ bodyTag.take ((styleInsert ++ headTag).drop m).length =
                  ((styleInsert ++ headTag).drop m).take bodyTag.length := by decide
            exact hfact (j - (content.take i).length) (by omega) (by omega)
              (prefix_take_eq hm)
          rcases hj_out with hle | hge
          · have htake : (content.take i ++ styleInsert ++ content.drop i).take j =
                (content.take i).take j := by
              rw [hhtml2, List.take_append_eq_append_take, List.take_append_eq_append_take]
              have h0 : j - (content.take i).length = 0 := by omega
              have h1 : j - (content.take i ++ (styleInsert ++ headTag)).length = 0 := by
                omega
              rw [h0, h1]
              simp
            have hdrop : (content.take i ++ styleInsert ++ content.drop i).drop j =
                (content.take i).drop j ++ ((styleInsert ++ headTag) ++ rest) := by
              rw [hhtml2, List.drop_append_eq_append_drop, List.drop_append_eq_append_drop]
              have h0 : j - (content.take i).length = 0 := by omega
              have h1 : j - (content.take i ++ (styleInsert ++ headTag)).length = 0 := by
                omega
              rw [h0, h1, List.drop_zero, List.drop_zero]
              simp [List.append_assoc]
            refine ⟨(content.take i).take j ++ scriptInsert ++ (content.take i).drop j,
              rest, ?_⟩
            rw [hr', htake, hdrop]
            simp [List.append_assoc]
          · have htake : (content.take i ++ styleInsert ++ content.drop i).take j =
                (content.take i ++ (styleInsert ++ headTag)) ++
                  rest.take (j - ((content.take i).length + 35)) := by
              rw [hhtml2, List.take_append_eq_append_take]
              rw [List.take_of_length_le (by omega), hTlen]
            refine ⟨content.take i,
              rest.take (j - ((content.take i).length + 35)) ++ scriptInsert ++
                (content.take i ++ styleInsert ++ content.drop i).drop j, ?_⟩
            rw [hr', htake]
            simp [List.append_assoc]
        · -- the script placeholder sits immediately before a body anchor in r
          obtain ⟨q, hq⟩ := hj
          refine ⟨(content.take i ++ styleInsert ++ content.drop i).take j, q, ?_⟩
          rw [hr', ← hq]
          simp [List.append_assoc]

/-- Witness for C7 on a concrete shell with both anchors and on concrete
shells each lacking one anchor. -/
theorem claim_C7_witness :
    ((∃ e, parseLayoutFile (str "<html><head><body></html>") = Except.error e) ↔
      (containsSub headTag (str "<html><head><body></html>") = false ∨
        containsSub bodyTag (str "<html><head><body></html>") = false)) ∧
    ((∃ e, parseLayoutFile (str "<html><head></head><body>x</body></html>") =
        Except.error e) ↔
      (containsSub headTag (str "<html><head></head><body>x</body></html>") = false ∨
        containsSub bodyTag (str "<html><head></head><body>x</body></html>") = false)) ∧
    (∀ r, parseLayoutFile (str "<html><head></head><body>x</body></html>") =
        Except.ok r →
      (∃ p q, r = p ++ (styleInsert ++ headTag) ++ q) ∧
      (∃ p q, r = p ++ (scriptInsert ++ bodyTag) ++ q)) :=
  ⟨(claim_C7 (str "<html><head><body></html>")).1,
   (claim_C7 (str "<html><head></head><body>x</body></html>")).1,
   (claim_C7 (str "<html><head></head><body>x</body></html>")).2⟩

/-- C8: on a document whose `<template>` block has content
`<p>Hi {{.Name}}</p>` and a style block, the regex captures are
(attributes, inner content) = (`""`, `<p>Hi {{.Name}}</p>`), but
`ExecuteIsolated` compiles `matches[1]` — the *attribute* capture — so
the template it renders is the empty string instead of the markup-block
content its own documentation promises; with non-empty template
attributes it renders the attribute text itself. -/
theorem claim_C8_code_bug :
    findTemplateBlock
        (str "<template><p>Hi \x7b\x7b.Name\x7d\x7d</p></template><style>p\x7bcolor:red\x7d</style>") =
      some (str "", str "<p>Hi \x7b\x7b.Name\x7d\x7d</p>") ∧
    isolatedHTMLContent
        (str "<template><p>Hi \x7b\x7b.Name\x7d\x7d</p></template><style>p\x7bcolor:red\x7d</style>") =
      str "" ∧
    str "" ≠ str "<p>Hi \x7b\x7b.Name\x7d\x7d</p>" ∧
    isolatedHTMLContent (str "<template lang=\x22en\x22><p>Hi</p></template>") =
      str " lang=\x22en\x22" ∧
    isolatedHTMLContent (str "no markup block here") = str "no markup block here" := by
  decide

/-- C9 counterexample: the `TemplateSet` keeps ONE component call stack
(the `compStack` variable captured by the closures `ParseDirs` installs)
and ONE used-template set for all renders.  In the interleaving where
render A's `comp` has pushed its frame and render B then evaluates
`param 0`, B reads A's argument from the shared stack — whereas the
claimed independent per-render stack would give B its own empty stack,
i.e. `nil`.  Likewise render B's `Execute` start clears the shared
used-set, erasing render A's registration. -/
theorem claim_C9_counterexample :
    param ((runOps ⟨[], []⟩
        [RenderOp.push ⟨[GoValue.strv (str "fromA")], str "card"⟩]).compStack) 0 =
      GoValue.strv (str "fromA") ∧
    param ([] : List compCall) 0 = GoValue.nil ∧
    GoValue.strv (str "fromA") ≠ GoValue.nil ∧
    (runOps ⟨[], []⟩ [RenderOp.markUsed (str "card"), RenderOp.clearUsed]).usedTemplates =
      [] := by
  decide

/-- C9 (amended): concurrent renders of one `TemplateSet` do NOT own
independent state — one call stack and one used-component set are shared
by all of them (each operation individually mutex-guarded): after any
render pushes a frame, any concurrently executing render's `param 0`
observes that frame's first argument, and the used-set clear performed at
the start of any render empties the set regardless of which render's
registrations it holds. -/
theorem claim_C9 :
    ∀ (st : SetState) (c : compCall) (v : GoValue),
      c.Args = [v] →
      param ((applyOp st (RenderOp.push c)).compStack) 0 = v ∧
      (applyOp st RenderOp.clearUsed).usedTemplates = [] := by
  intro st c v hargs
  refine ⟨?_, rfl⟩
  rw [show (applyOp st (RenderOp.push c)).compStack = st.compStack ++ [c] from rfl,
    param_concat, hargs]
  simp

/-- Witness for C9: a frame pushed onto a non-empty shared state is
observed by the very next `param` read. -/
theorem claim_C9_witness :
    param ((applyOp ⟨[⟨[], str "other"⟩], [str "page"]⟩
        (RenderOp.push ⟨[GoValue.num 42], str "card"⟩)).compStack) 0 = GoValue.num 42 ∧
    (applyOp ⟨[⟨[], str "other"⟩], [str "page"]⟩ RenderOp.clearUsed).usedTemplates = [] :=
  claim_C9 ⟨[⟨[], str "other"⟩], [str "page"]⟩ ⟨[GoValue.num 42], str "card"⟩
    (GoValue.num 42) rfl

/-- C10: when the requested name is not registered, or no layout has been
compiled, `Execute` returns a non-nil error, writes nothing to the output
writer, and performs no template evaluation (the outcome does not depend
on the evaluation functions at all). -/
theorem claim_C10 :
    ∀ (templates : List Str) (layoutDefined : Bool) (name : Str)
      (render render' : Unit → Except Str Str)
      (layoutRender layoutRender' : Str → Except Str Str),
      templates.contains name = false ∨ layoutDefined = false →
      (ExecuteModel templates layoutDefined name render layoutRender).written = [] ∧
      (ExecuteModel templates layoutDefined name render layoutRender).err ≠ none ∧
      ExecuteModel templates layoutDefined name render layoutRender =
        ExecuteModel templates layoutDefined name render' layoutRender' := by
  rintro t ld n r r' lr lr' (h | h)
  · have hm : n ∉ t := by
      intro hmm
      have h' : List.elem n t = false := h
      rw [List.elem_iff.mpr hmm] at h'
      exact absurd h' (by simp)
    simp [ExecuteModel, hm]
  · subst h
    by_cases hc : n ∈ t
    · simp [ExecuteModel, hc]
    · simp [ExecuteModel, hc]

/-- Witness for C10, covering both precondition failures: an unregistered
name, and a registered name before any layout is compiled. -/
theorem claim_C10_witness :
    ((ExecuteModel [str "home"] true (str "missing")
        (fun _ => Except.ok (str "X")) (fun s => Except.ok s)).written = [] ∧
      (ExecuteModel [str "home"] true (str "missing")
        (fun _ => Except.ok (str "X")) (fun s => Except.ok s)).err ≠ none ∧
      ExecuteModel [str "home"] true (str "missing")
          (fun _ => Except.ok (str "X")) (fun s => Except.ok s) =
        ExecuteModel [str "home"] true (str "missing")
          (fun _ => Except.error (str "E")) (fun _ => Except.error (str "E"))) ∧
    ((ExecuteModel [str "home"] false (str "home")
        (fun _ => Except.ok (str "X")) (fun s => Except.ok s)).written = [] ∧
      (ExecuteModel [str "home"] false (str "home")
        (fun _ => Except.ok (str "X")) (fun s => Except.ok s)).err ≠ none ∧
      ExecuteModel [str "home"] false (str "home")
          (fun _ => Except.ok (str "X")) (fun s => Except.ok s) =
        ExecuteModel [str "home"] false (str "home")
          (fun _ => Except.error (str "E")) (fun _ => Except.error (str "E"))) :=
  ⟨claim_C10 [str "home"] true (str "missing") _ _ _ _ (Or.inl (by decide)),
   claim_C10 [str "home"] false (str "home") _ _ _ _ (Or.inr rfl)⟩

end Skingo
